import Mathlib

/-!
Verification of the netcalc CIDR subnet calculator (netcalc.go).

The Go program parses an `address/prefix` string, validates it, and derives
the netmask, wildcard mask, network address, broadcast address, usable host
range and host count.  Addresses are 4-byte big-endian buffers (`net.IP`);
we embed them as a structure of four `Nat` bytes, with arithmetic written
modulo 256 exactly where the Go byte arithmetic wraps.
-/

set_option maxRecDepth 10000

/-- A 4-byte big-endian IPv4 address buffer, one `Nat` per byte, mirroring
the 4-byte `net.IP` slices used throughout netcalc.go (`b0` is the most
significant byte). -/
structure IPv4 where
  b0 : Nat
  b1 : Nat
  b2 : Nat
  b3 : Nat
deriving DecidableEq

/-- Every byte of a `net.IP` buffer holds a value in `[0,255]`. -/
def IPv4.Valid : IPv4 → Prop
  | ⟨a, b, c, d⟩ => a < 256 ∧ b < 256 ∧ c < 256 ∧ d < 256

instance : (ip : IPv4) → Decidable ip.Valid
  | ⟨_, _, _, _⟩ => inferInstanceAs (Decidable (_ ∧ _ ∧ _ ∧ _))

/-- The 32-bit unsigned value denoted by a 4-byte big-endian buffer. -/
def IPv4.toNat : IPv4 → Nat
  | ⟨a, b, c, d⟩ => ((a * 256 + b) * 256 + c) * 256 + d

/-- Embedding of `incrementIP` from netcalc.go: walk the bytes from least
significant to most significant, adding 1 with byte wrap-around (Go `ip[i]++`
on a byte is addition mod 256) and stopping at the first byte that does not
wrap to 0.  The Go loop mutates the slice in place; here the updated buffer
is returned. -/
def incrementIP : IPv4 → IPv4
  | ⟨a, b, c, d⟩ =>
    if (d + 1) % 256 ≠ 0 then ⟨a, b, c, (d + 1) % 256⟩
    else if (c + 1) % 256 ≠ 0 then ⟨a, b, (c + 1) % 256, (d + 1) % 256⟩
    else if (b + 1) % 256 ≠ 0 then ⟨a, (b + 1) % 256, (c + 1) % 256, (d + 1) % 256⟩
    else ⟨(a + 1) % 256, (b + 1) % 256, (c + 1) % 256, (d + 1) % 256⟩

/-- Embedding of `decrementIP` from netcalc.go: walk the bytes from least
significant to most significant, subtracting 1 with byte wrap-around
(Go `ip[i]--` on a byte is addition of 255 mod 256) and stopping at the
first byte that does not wrap to 255. -/
def decrementIP : IPv4 → IPv4
  | ⟨a, b, c, d⟩ =>
    if (d + 255) % 256 ≠ 255 then ⟨a, b, c, (d + 255) % 256⟩
    else if (c + 255) % 256 ≠ 255 then ⟨a, b, (c + 255) % 256, (d + 255) % 256⟩
    else if (b + 255) % 256 ≠ 255 then ⟨a, (b + 255) % 256, (c + 255) % 256, (d + 255) % 256⟩
    else ⟨(a + 255) % 256, (b + 255) % 256, (c + 255) % 256, (d + 255) % 256⟩

/-- One byte of `net.CIDRMask(ones, 32)`: with `n` one-bits still owed to the
current byte, the byte is 255 when `n ≥ 8` and otherwise `^byte(0xff >> n)`
in Go, i.e. the byte complement `255 - (255 >>> n)`. -/
def cidrMaskByte (n : Nat) : Nat :=
  if 8 ≤ n then 255 else 255 - (255 >>> n)

/-- The 4-byte netmask `net.CIDRMask(ones, 32)` built by the per-byte loop of
the Go standard library; truncated subtraction plays the role of the `n -= 8`
bookkeeping (after the first short byte the remaining count is 0, giving 0
bytes, exactly as `ones - 8 * i` truncates to 0). -/
def cidrMask (ones : Nat) : IPv4 :=
  ⟨cidrMaskByte ones, cidrMaskByte (ones - 8), cidrMaskByte (ones - 16),
   cidrMaskByte (ones - 24)⟩

/-- Byte-wise AND of two 4-byte buffers (`ip.Mask(mask)` in Go). -/
def land4 (x y : IPv4) : IPv4 :=
  ⟨x.b0 &&& y.b0, x.b1 &&& y.b1, x.b2 &&& y.b2, x.b3 &&& y.b3⟩

/-- Byte-wise OR of two 4-byte buffers (the `broadcast[i] |= ...` loop). -/
def lor4 (x y : IPv4) : IPv4 :=
  ⟨x.b0 ||| y.b0, x.b1 ||| y.b1, x.b2 ||| y.b2, x.b3 ||| y.b3⟩

/-- Byte-wise complement: Go `^b` on a byte equals `255 - b`. -/
def compl4 (x : IPv4) : IPv4 :=
  ⟨255 - x.b0, 255 - x.b1, 255 - x.b2, 255 - x.b3⟩

/-- The netmask derived in `calculate`: `net.IP(ipNet.Mask).To4()`. -/
def netmaskOf (ones : Nat) : IPv4 := cidrMask ones

/-- The wildcard derived in `calculate`: `wildcard[i] = ^ipNet.Mask[i]`. -/
def wildcardOf (ones : Nat) : IPv4 := compl4 (cidrMask ones)

/-- The network address derived in `calculate`: `net.ParseCIDR` returns the
input address masked by the netmask (`ip.Mask(m)` byte-wise AND), and
`calculate` reads it back as `ipNet.IP.To4()`. -/
def networkOf (A : IPv4) (ones : Nat) : IPv4 := land4 A (cidrMask ones)

/-- The broadcast address derived in `calculate`: a copy of the network with
`broadcast[i] |= ^ipNet.Mask[i]` applied to each byte. -/
def broadcastOf (A : IPv4) (ones : Nat) : IPv4 :=
  lor4 (networkOf A ones) (wildcardOf ones)

/-- The `switch` in `calculate` choosing `(hostmin, hostmax)`: one address at
/32, the two-address point-to-point range at /31, and otherwise
`incrementIP`/`decrementIP` applied to copies of network and broadcast. -/
def hostRange (network broadcast : IPv4) (ones : Nat) : IPv4 × IPv4 :=
  if ones = 32 then (network, network)
  else if ones = 31 then (network, broadcast)
  else (incrementIP network, decrementIP broadcast)

/-- First usable host address as computed by `calculate`. -/
def hostminOf (A : IPv4) (ones : Nat) : IPv4 :=
  (hostRange (networkOf A ones) (broadcastOf A ones) ones).1

/-- Last usable host address as computed by `calculate`. -/
def hostmaxOf (A : IPv4) (ones : Nat) : IPv4 :=
  (hostRange (networkOf A ones) (broadcastOf A ones) ones).2

/-- Embedding of `calculateTotalHosts` from netcalc.go.  The Go function
computes in `uint64` (with the shift `1 << (32-bitmask)` performed on a
64-bit `int`); its callers only pass `bitmask ≤ 32`, and on that range no
subtraction wraps, so plain `Nat` arithmetic coincides with the Go values. -/
def calculateTotalHosts (bitmask : Nat) : Nat :=
  if 31 ≤ bitmask then 32 - bitmask + 1
  else (1 <<< (32 - bitmask)) - 2

/-- Number of one-bits in a byte, written as the explicit sum of its 8 bits. -/
def popCount8 (b : Nat) : Nat :=
  b % 2 + b / 2 % 2 + b / 4 % 2 + b / 8 % 2 +
  b / 16 % 2 + b / 32 % 2 + b / 64 % 2 + b / 128 % 2

/-- Number of one-bits in a 4-byte buffer. -/
def popCount4 (ip : IPv4) : Nat :=
  popCount8 ip.b0 + popCount8 ip.b1 + popCount8 ip.b2 + popCount8 ip.b3

/-- One (name, textual value) row of the result list (`ResultItem` in Go). -/
structure ResultItem where
  Name : String
  Value : String
deriving DecidableEq

/-- Dotted-decimal rendering of a 4-byte buffer, as `net.IP.String()`
produces for a 4-byte address. -/
def ip4Str (ip : IPv4) : String :=
  toString ip.b0 ++ "." ++ toString ip.b1 ++ "." ++ toString ip.b2 ++ "." ++ toString ip.b3

/-- Shape of the address text in front of the `/` of a CIDR input, as the Go
`net` package classifies it: a dotted quad of decimal octets, a
syntactically well-formed IPv6 address (including 4-in-6 forms, which Go
treats as the 16-byte family), or unparseable text.  For the IPv6 case no
bytes are carried: every claim below depends only on the family, because a
128-bit address masked by a prefix of at most 32 bits has bytes 10 and 11
equal to 0, so Go `To4()` returns nil on it regardless of the address. -/
inductive AddrText where
  | v4 (a b c d : Nat)
  | v6
  | bad
deriving DecidableEq

/-- Shape of the text behind the `/`: a string of decimal digits with value
`n`, or text that `strconv.Atoi` rejects. -/
inductive MaskText where
  | num (n : Nat)
  | bad
deriving DecidableEq

/-- Bit length `net.ParseCIDR` assigns to the address part, `none` when the
address does not parse: 32 for a valid dotted quad (each octet in [0,255]),
128 for an IPv6 address. -/
def AddrText.bitLen : AddrText → Option Nat
  | .v4 a b c d => if a ≤ 255 ∧ b ≤ 255 ∧ c ≤ 255 ∧ d ≤ 255 then some 32 else none
  | .v6 => some 128
  | .bad => none

/-- A CIDR input string, abstracted to the features the program inspects:
whether it contains a `/`, and the shapes of the address and mask texts on
either side of the first `/`. -/
structure CIDRInput where
  hasSlash : Bool
  addr : AddrText
  mask : MaskText
deriving DecidableEq

/-- Embedding of `parseCIDR` from netcalc.go: reject inputs without a `/`
with "invalid CIDR format"; then `net.ParseCIDR` must accept the string,
which requires a parseable address and an all-digits mask text whose value
is at most the address bit length — otherwise "invalid CIDR"; on success
the address text and mask text are handed on unchanged. -/
def parseCIDR (inp : CIDRInput) : Except String (AddrText × MaskText) :=
  if inp.hasSlash = false then .error "invalid CIDR format"
  else
    match inp.addr.bitLen, inp.mask with
    | some bl, .num n =>
      if n ≤ bl then .ok (inp.addr, inp.mask) else .error "invalid CIDR"
    | some _, .bad => .error "invalid CIDR"
    | none, _ => .error "invalid CIDR"

/-- Embedding of `calculate` from netcalc.go.  In order: `strconv.Atoi` must
accept the mask text and its value must lie in [0,32] ("invalid bitmask");
re-parsing `address/bitmask` with `net.ParseCIDR` must succeed ("invalid IP
address") — for a bitmask already known to be at most 32 this only requires
the address itself to parse; the masked network must be an IPv4-family
address ("IPv6 is not supported": a 128-bit address masked to at most 32
bits never satisfies Go `To4() != nil`); then the nine result rows are
built.  `ipNet.Mask.Size()` recovers exactly `bitmask` from
`net.CIDRMask(bitmask, 32)`, so `ones = bitmask`. -/
def calculate (ipTxt : AddrText) (bitmaskTxt : MaskText) : Except String (List ResultItem) :=
  match bitmaskTxt with
  | .bad => .error "invalid bitmask"
  | .num bitmask =>
    if 32 < bitmask then .error "invalid bitmask"
    else
      match ipTxt with
      | .bad => .error "invalid IP address"
      | .v6 => .error "IPv6 is not supported"
      | .v4 a b c d =>
        if a ≤ 255 ∧ b ≤ 255 ∧ c ≤ 255 ∧ d ≤ 255 then
          .ok [⟨"Address", ip4Str ⟨a, b, c, d⟩⟩,
               ⟨"Bitmask", toString bitmask⟩,
               ⟨"Netmask", ip4Str (netmaskOf bitmask)⟩,
               ⟨"Wildcard", ip4Str (wildcardOf bitmask)⟩,
               ⟨"Network", ip4Str (networkOf ⟨a, b, c, d⟩ bitmask)⟩,
               ⟨"Broadcast", ip4Str (broadcastOf ⟨a, b, c, d⟩ bitmask)⟩,
               ⟨"Hostmin", ip4Str (hostminOf ⟨a, b, c, d⟩ bitmask)⟩,
               ⟨"Hostmax", ip4Str (hostmaxOf ⟨a, b, c, d⟩ bitmask)⟩,
               ⟨"Hosts", toString (calculateTotalHosts bitmask)⟩]
        else .error "invalid IP address"

/-- Embedding of `runConsoleMode` from netcalc.go without the printing:
`parseCIDR` feeds `calculate`, and the first error is terminal. -/
def runConsoleMode (inp : CIDRInput) : Except String (List ResultItem) :=
  match parseCIDR inp with
  | .error e => .error e
  | .ok (ipTxt, bitmaskTxt) => calculate ipTxt bitmaskTxt

theorem toNat_lt (v : IPv4) (hv : v.Valid) : v.toNat < 4294967296 := by
  obtain ⟨a, b, c, d⟩ := v
  obtain ⟨h0, h1, h2, h3⟩ := hv
  simp only [IPv4.toNat]
  omega

theorem toNat_inj (v w : IPv4) (hv : v.Valid) (hw : w.Valid) (h : v.toNat = w.toNat) :
    v = w := by
  obtain ⟨a, b, c, d⟩ := v
  obtain ⟨a2, b2, c2, d2⟩ := w
  obtain ⟨h0, h1, h2, h3⟩ := hv
  obtain ⟨g0, g1, g2, g3⟩ := hw
  simp only [IPv4.toNat] at h
  simp only [IPv4.mk.injEq]
  omega

theorem incrementIP_toNat (v : IPv4) (hv : v.Valid) :
    (incrementIP v).toNat = (v.toNat + 1) % 4294967296 := by
  obtain ⟨a, b, c, d⟩ := v
  obtain ⟨h0, h1, h2, h3⟩ := hv
  simp only [incrementIP]
  split_ifs <;> simp only [IPv4.toNat] <;> omega

theorem decrementIP_toNat (v : IPv4) (hv : v.Valid) :
    (decrementIP v).toNat = (v.toNat + 4294967295) % 4294967296 := by
  obtain ⟨a, b, c, d⟩ := v
  obtain ⟨h0, h1, h2, h3⟩ := hv
  simp only [decrementIP]
  split_ifs <;> simp only [IPv4.toNat] <;> omega

theorem incrementIP_valid (v : IPv4) (hv : v.Valid) : (incrementIP v).Valid := by
  obtain ⟨a, b, c, d⟩ := v
  obtain ⟨h0, h1, h2, h3⟩ := hv
  simp only [incrementIP]
  split_ifs <;> simp only [IPv4.Valid] <;> refine ⟨by omega, by omega, by omega, by omega⟩

theorem decrementIP_valid (v : IPv4) (hv : v.Valid) : (decrementIP v).Valid := by
  obtain ⟨a, b, c, d⟩ := v
  obtain ⟨h0, h1, h2, h3⟩ := hv
  simp only [decrementIP]
  split_ifs <;> simp only [IPv4.Valid] <;> refine ⟨by omega, by omega, by omega, by omega⟩

theorem decrementIP_incrementIP (v : IPv4) (hv : v.Valid) :
    decrementIP (incrementIP v) = v := by
  apply toNat_inj _ _ (decrementIP_valid _ (incrementIP_valid v hv)) hv
  rw [decrementIP_toNat _ (incrementIP_valid v hv), incrementIP_toNat v hv]
  have := toNat_lt v hv
  omega

theorem incrementIP_decrementIP (v : IPv4) (hv : v.Valid) :
    incrementIP (decrementIP v) = v := by
  apply toNat_inj _ _ (incrementIP_valid _ (decrementIP_valid v hv)) hv
  rw [incrementIP_toNat _ (decrementIP_valid v hv), decrementIP_toNat v hv]
  have := toNat_lt v hv
  omega

/-- C9: on 4-byte big-endian buffers, `incrementIP` computes `(v + 1) mod 2^32`
and `decrementIP` computes `(v - 1) mod 2^32`; both are total, wrapping at
255.255.255.255 and 0.0.0.0, and they are mutually inverse. -/
theorem inc_dec_spec (v : IPv4) (hv : v.Valid) :
    (incrementIP v).toNat = (v.toNat + 1) % 2 ^ 32
  ∧ (decrementIP v).toNat = (v.toNat + (2 ^ 32 - 1)) % 2 ^ 32
  ∧ decrementIP (incrementIP v) = v
  ∧ incrementIP (decrementIP v) = v := by
  have h32 : (2 : Nat) ^ 32 = 4294967296 := by norm_num
  refine ⟨?_, ?_, decrementIP_incrementIP v hv, incrementIP_decrementIP v hv⟩
  · rw [h32]; exact incrementIP_toNat v hv
  · rw [h32]
    have := decrementIP_toNat v hv
    omega

theorem inc_dec_spec_witness :
    (incrementIP ⟨255, 255, 255, 255⟩).toNat = (IPv4.toNat ⟨255, 255, 255, 255⟩ + 1) % 2 ^ 32
  ∧ decrementIP (incrementIP ⟨255, 255, 255, 255⟩) = ⟨255, 255, 255, 255⟩ :=
  ⟨(inc_dec_spec ⟨255, 255, 255, 255⟩ (by decide)).1,
   (inc_dec_spec ⟨255, 255, 255, 255⟩ (by decide)).2.2.1⟩

theorem land_land_compl (a m : Nat) (hm : m < 256) :
    (a &&& m) &&& (255 - m) = 0 := by
  have h8 : (2 : Nat) ^ 8 = 256 := by norm_num
  have h : 255 - m = 2 ^ 8 - (m + 1) := by omega
  apply Nat.eq_of_testBit_eq
  intro i
  rw [h]
  simp only [Nat.testBit_and, Nat.testBit_two_pow_sub_succ (by omega : m < 2 ^ 8),
    Nat.zero_testBit]
  cases Nat.testBit m i <;> simp

theorem lor_eq_add_of_land_eq_zero (x : Nat) : ∀ y, x &&& y = 0 → x ||| y = x + y := by
  induction x using Nat.strong_induction_on with
  | _ x ih =>
    intro y h
    rcases Nat.eq_zero_or_pos x with hx | hx
    · subst hx; simp
    · have hdiv : x / 2 ||| y / 2 = x / 2 + y / 2 := by
        apply ih (x / 2) (Nat.div_lt_self hx (by norm_num))
        rw [← Nat.and_div_two, h]
      have hor2 : (x ||| y) / 2 = x / 2 ||| y / 2 := Nat.or_div_two
      have hmod : ¬(x % 2 = 1 ∧ y % 2 = 1) := by
        rintro ⟨h1, h2⟩
        have : (x &&& y) % 2 = 1 := Nat.and_mod_two_eq_one.mpr ⟨h1, h2⟩
        rw [h] at this
        simp at this
      have hormod : (x ||| y) % 2 = 1 ↔ x % 2 = 1 ∨ y % 2 = 1 := Nat.or_mod_two_eq_one
      have e1 := Nat.div_add_mod (x ||| y) 2
      have e2 := Nat.div_add_mod x 2
      have e3 := Nat.div_add_mod y 2
      have m1 : (x ||| y) % 2 < 2 := Nat.mod_lt _ (by norm_num)
      have m2 : x % 2 < 2 := Nat.mod_lt _ (by norm_num)
      have m3 : y % 2 < 2 := Nat.mod_lt _ (by norm_num)
      omega

theorem byte_or_lt (x y : Nat) (hx : x < 256) (hy : y < 256) : x ||| y < 256 := by
  have h8 : (2 : Nat) ^ 8 = 256 := by norm_num
  have := @Nat.or_lt_two_pow x y 8 (by omega) (by omega)
  omega

theorem cidrMaskByte_lt (n : Nat) : cidrMaskByte n < 256 := by
  unfold cidrMaskByte
  split
  · exact Nat.lt_succ_of_le (Nat.le_refl 255)
  · exact Nat.lt_succ_of_le (Nat.sub_le 255 _)

theorem cidrMaskByte_le_252 (n : Nat) (hn : n ≤ 6) : cidrMaskByte n ≤ 252 := by
  interval_cases n <;> decide

theorem network_valid (A : IPv4) (p : Nat) : (networkOf A p).Valid := by
  obtain ⟨a, b, c, d⟩ := A
  simp only [networkOf, land4, cidrMask, IPv4.Valid]
  exact ⟨Nat.lt_of_le_of_lt Nat.and_le_right (cidrMaskByte_lt _),
    Nat.lt_of_le_of_lt Nat.and_le_right (cidrMaskByte_lt _),
    Nat.lt_of_le_of_lt Nat.and_le_right (cidrMaskByte_lt _),
    Nat.lt_of_le_of_lt Nat.and_le_right (cidrMaskByte_lt _)⟩

theorem wildcard_valid (p : Nat) : (wildcardOf p).Valid := by
  simp only [wildcardOf, compl4, cidrMask, IPv4.Valid]
  omega

theorem broadcast_valid (A : IPv4) (p : Nat) : (broadcastOf A p).Valid := by
  obtain ⟨a, b, c, d⟩ := A
  have h0 := cidrMaskByte_lt p
  have h8 := cidrMaskByte_lt (p - 8)
  have h16 := cidrMaskByte_lt (p - 16)
  have h24 := cidrMaskByte_lt (p - 24)
  simp only [broadcastOf, lor4, networkOf, land4, wildcardOf, compl4, cidrMask, IPv4.Valid]
  exact ⟨byte_or_lt _ _ (Nat.lt_of_le_of_lt Nat.and_le_right h0) (by omega),
    byte_or_lt _ _ (Nat.lt_of_le_of_lt Nat.and_le_right h8) (by omega),
    byte_or_lt _ _ (Nat.lt_of_le_of_lt Nat.and_le_right h16) (by omega),
    byte_or_lt _ _ (Nat.lt_of_le_of_lt Nat.and_le_right h24) (by omega)⟩

theorem broadcast_toNat (A : IPv4) (p : Nat) :
    (broadcastOf A p).toNat = (networkOf A p).toNat + (wildcardOf p).toNat := by
  obtain ⟨a, b, c, d⟩ := A
  simp only [broadcastOf, lor4, networkOf, land4, wildcardOf, compl4, cidrMask, IPv4.toNat]
  rw [lor_eq_add_of_land_eq_zero _ _ (land_land_compl a _ (cidrMaskByte_lt p)),
    lor_eq_add_of_land_eq_zero _ _ (land_land_compl b _ (cidrMaskByte_lt (p - 8))),
    lor_eq_add_of_land_eq_zero _ _ (land_land_compl c _ (cidrMaskByte_lt (p - 16))),
    lor_eq_add_of_land_eq_zero _ _ (land_land_compl d _ (cidrMaskByte_lt (p - 24)))]
  ring

theorem wildcard_toNat (p : Nat) (hp : p ≤ 32) :
    (wildcardOf p).toNat = 2 ^ (32 - p) - 1 := by
  interval_cases p <;> decide

theorem wildcard_ge3 (p : Nat) (hp : p ≤ 30) : 3 ≤ (wildcardOf p).toNat := by
  have hw := wildcard_toNat p (by omega)
  have h4 : (2 : Nat) ^ 2 ≤ 2 ^ (32 - p) := Nat.pow_le_pow_right (by norm_num) (by omega)
  have h2 : (2 : Nat) ^ 2 = 4 := by norm_num
  omega

theorem network_b3_le (A : IPv4) (p : Nat) (hp : p ≤ 30) :
    (networkOf A p).b3 ≤ 252 := by
  obtain ⟨a, b, c, d⟩ := A
  have h1 : cidrMaskByte (p - 24) ≤ 252 := cidrMaskByte_le_252 _ (by omega)
  simp only [networkOf, land4, cidrMask]
  exact Nat.le_trans Nat.and_le_right h1

theorem broadcast_b3_ge (A : IPv4) (p : Nat) (hp : p ≤ 30) :
    3 ≤ (broadcastOf A p).b3 := by
  obtain ⟨a, b, c, d⟩ := A
  have h1 : cidrMaskByte (p - 24) ≤ 252 := cidrMaskByte_le_252 _ (by omega)
  have h2 := cidrMaskByte_lt (p - 24)
  simp only [broadcastOf, lor4, networkOf, land4, wildcardOf, compl4, cidrMask]
  rw [lor_eq_add_of_land_eq_zero _ _ (land_land_compl d _ h2)]
  omega

theorem incrementIP_no_wrap (v : IPv4) (h : v.b3 < 255) :
    (incrementIP v).toNat = v.toNat + 1 := by
  obtain ⟨a, b, c, d⟩ := v
  have hd : d < 255 := h
  simp only [incrementIP]
  rw [if_pos (show (d + 1) % 256 ≠ 0 by omega)]
  simp only [IPv4.toNat]
  omega

theorem decrementIP_no_borrow (v : IPv4) (hv : v.Valid) (h : 0 < v.b3) :
    (decrementIP v).toNat + 1 = v.toNat := by
  obtain ⟨a, b, c, d⟩ := v
  obtain ⟨h0, h1, h2, h3⟩ := hv
  have hd : 0 < d := h
  simp only [decrementIP]
  rw [if_pos (show (d + 255) % 256 ≠ 255 by omega)]
  simp only [IPv4.toNat]
  omega

theorem hostmin_eq (A : IPv4) (p : Nat) (hp : p ≤ 30) :
    hostminOf A p = incrementIP (networkOf A p) := by
  simp only [hostminOf, hostRange]
  rw [if_neg (by omega), if_neg (by omega)]

theorem hostmax_eq (A : IPv4) (p : Nat) (hp : p ≤ 30) :
    hostmaxOf A p = decrementIP (broadcastOf A p) := by
  simp only [hostmaxOf, hostRange]
  rw [if_neg (by omega), if_neg (by omega)]

theorem hostmin_toNat (A : IPv4) (p : Nat) (hp : p ≤ 30) :
    (hostminOf A p).toNat = (networkOf A p).toNat + 1 := by
  rw [hostmin_eq A p hp]
  exact incrementIP_no_wrap _ (by have := network_b3_le A p hp; omega)

theorem hostmax_toNat (A : IPv4) (p : Nat) (hp : p ≤ 30) :
    (hostmaxOf A p).toNat + 1 = (broadcastOf A p).toNat := by
  rw [hostmax_eq A p hp]
  exact decrementIP_no_borrow _ (broadcast_valid A p)
    (by have := broadcast_b3_ge A p hp; omega)

/-- C1: the usable host range follows three cases on the prefix: at /32 both
hostmin and hostmax are the network itself; at /31 hostmin is the network and
hostmax the broadcast; otherwise hostmin and hostmax come from the byte-wise
carry/borrow loops `incrementIP`/`decrementIP` applied to network and
broadcast, and for a prefix of at most 30 those loops compute exactly
network + 1 and broadcast - 1 as 32-bit values. -/
theorem host_range_cases (A : IPv4) (hA : A.Valid) (p : Nat) (hp : p ≤ 32) :
    (p = 32 → hostminOf A p = networkOf A p ∧ hostmaxOf A p = networkOf A p)
  ∧ (p = 31 → hostminOf A p = networkOf A p ∧ hostmaxOf A p = broadcastOf A p)
  ∧ (p ≤ 30 → hostminOf A p = incrementIP (networkOf A p)
      ∧ hostmaxOf A p = decrementIP (broadcastOf A p)
      ∧ (hostminOf A p).toNat = (networkOf A p).toNat + 1
      ∧ (hostmaxOf A p).toNat + 1 = (broadcastOf A p).toNat) := by
  refine ⟨fun h => ?_, fun h => ?_, fun h => ?_⟩
  · subst h
    exact ⟨by simp [hostminOf, hostRange], by simp [hostmaxOf, hostRange]⟩
  · subst h
    exact ⟨by simp [hostminOf, hostRange], by simp [hostmaxOf, hostRange]⟩
  · exact ⟨hostmin_eq A p h, hostmax_eq A p h, hostmin_toNat A p h, hostmax_toNat A p h⟩

theorem host_range_cases_witness :
    hostminOf ⟨10, 0, 0, 5⟩ 30 = incrementIP (networkOf ⟨10, 0, 0, 5⟩ 30)
  ∧ hostmaxOf ⟨10, 0, 0, 5⟩ 30 = decrementIP (broadcastOf ⟨10, 0, 0, 5⟩ 30)
  ∧ (hostminOf ⟨10, 0, 0, 5⟩ 30).toNat = (networkOf ⟨10, 0, 0, 5⟩ 30).toNat + 1
  ∧ (hostmaxOf ⟨10, 0, 0, 5⟩ 30).toNat + 1 = (broadcastOf ⟨10, 0, 0, 5⟩ 30).toNat :=
  (host_range_cases ⟨10, 0, 0, 5⟩ (by decide) 30 (by decide)).2.2 (by decide)

/-- C2: `calculateTotalHosts` returns `2^(32-p) - 2` for every prefix in
[0,30] — in particular 4294967294 at p = 0, with no overflow — and 2 at
p = 31 and 1 at p = 32. -/
theorem hosts_count_cases (p : Nat) (hp : p ≤ 32) :
    (p ≤ 30 → calculateTotalHosts p = 2 ^ (32 - p) - 2)
  ∧ (p = 31 → calculateTotalHosts p = 2)
  ∧ (p = 32 → calculateTotalHosts p = 1)
  ∧ calculateTotalHosts 0 = 4294967294 := by
  refine ⟨fun h => ?_, fun h => by subst h; decide, fun h => by subst h; decide, by decide⟩
  interval_cases p <;> decide

theorem hosts_count_cases_witness :
    calculateTotalHosts 0 = 2 ^ (32 - 0) - 2 :=
  (hosts_count_cases 0 (by decide)).1 (by decide)

/-- C5: for any valid address and prefix, the wildcard is the byte-wise
complement of the netmask, the network ANDed with the wildcard is zero, and
the network ORed with the wildcard is the broadcast. -/
theorem mask_algebra (A : IPv4) (hA : A.Valid) (p : Nat) (hp : p ≤ 32) :
    wildcardOf p = compl4 (netmaskOf p)
  ∧ land4 (networkOf A p) (wildcardOf p) = ⟨0, 0, 0, 0⟩
  ∧ lor4 (networkOf A p) (wildcardOf p) = broadcastOf A p := by
  refine ⟨rfl, ?_, rfl⟩
  obtain ⟨a, b, c, d⟩ := A
  simp only [networkOf, land4, wildcardOf, compl4, cidrMask, IPv4.mk.injEq]
  exact ⟨land_land_compl a _ (cidrMaskByte_lt _), land_land_compl b _ (cidrMaskByte_lt _),
    land_land_compl c _ (cidrMaskByte_lt _), land_land_compl d _ (cidrMaskByte_lt _)⟩

theorem mask_algebra_witness :
    land4 (networkOf ⟨192, 168, 1, 5⟩ 24) (wildcardOf 24) = ⟨0, 0, 0, 0⟩ :=
  (mask_algebra ⟨192, 168, 1, 5⟩ (by decide) 24 (by decide)).2.1

/-- C7: the number of one-bits in the derived netmask equals the input
prefix length exactly, for every prefix in [0,32]. -/
theorem netmask_bitcount (p : Nat) (hp : p ≤ 32) : popCount4 (netmaskOf p) = p := by
  interval_cases p <;> decide

theorem netmask_bitcount_witness : popCount4 (netmaskOf 24) = 24 :=
  netmask_bitcount 24 (by decide)

/-- C10: for every valid address and prefix in [0,30] the derived addresses
are strictly ordered as 32-bit values: network < hostmin < hostmax <
broadcast; in particular the increment producing hostmin and the decrement
producing hostmax stay inside the host range and never wrap. -/
theorem address_ordering (A : IPv4) (hA : A.Valid) (p : Nat) (hp : p ≤ 30) :
    (networkOf A p).toNat < (hostminOf A p).toNat
  ∧ (hostminOf A p).toNat < (hostmaxOf A p).toNat
  ∧ (hostmaxOf A p).toNat < (broadcastOf A p).toNat := by
  have h1 := hostmin_toNat A p hp
  have h2 := hostmax_toNat A p hp
  have h3 := broadcast_toNat A p
  have h4 := wildcard_ge3 p hp
  omega

theorem address_ordering_witness :
    (networkOf ⟨192, 168, 1, 0⟩ 24).toNat < (hostminOf ⟨192, 168, 1, 0⟩ 24).toNat :=
  (address_ordering ⟨192, 168, 1, 0⟩ (by decide) 24 (by decide)).1

/-- C6: the two concrete scenarios: 192.168.1.0/24 and 10.0.0.5/30 produce
exactly the documented field values. -/
theorem scenario_examples :
    calculate (.v4 192 168 1 0) (.num 24) = .ok
      [⟨"Address", "192.168.1.0"⟩, ⟨"Bitmask", "24"⟩, ⟨"Netmask", "255.255.255.0"⟩,
       ⟨"Wildcard", "0.0.0.255"⟩, ⟨"Network", "192.168.1.0"⟩,
       ⟨"Broadcast", "192.168.1.255"⟩, ⟨"Hostmin", "192.168.1.1"⟩,
       ⟨"Hostmax", "192.168.1.254"⟩, ⟨"Hosts", "254"⟩]
  ∧ calculate (.v4 10 0 0 5) (.num 30) = .ok
      [⟨"Address", "10.0.0.5"⟩, ⟨"Bitmask", "30"⟩, ⟨"Netmask", "255.255.255.252"⟩,
       ⟨"Wildcard", "0.0.0.3"⟩, ⟨"Network", "10.0.0.4"⟩, ⟨"Broadcast", "10.0.0.7"⟩,
       ⟨"Hostmin", "10.0.0.5"⟩, ⟨"Hostmax", "10.0.0.6"⟩, ⟨"Hosts", "2"⟩] :=
  ⟨rfl, rfl⟩

/-- C8: every successful computation returns the nine rows in the fixed
order Address, Bitmask, Netmask, Wildcard, Network, Broadcast, Hostmin,
Hostmax, Hosts, and the Address row echoes the input address text itself
(host bits are not masked off there). -/
theorem result_shape (a b c d p : Nat) (h : a ≤ 255 ∧ b ≤ 255 ∧ c ≤ 255 ∧ d ≤ 255)
    (hp : p ≤ 32) :
    ∃ r, calculate (.v4 a b c d) (.num p) = .ok r
      ∧ r.map ResultItem.Name =
          ["Address", "Bitmask", "Netmask", "Wildcard", "Network", "Broadcast",
           "Hostmin", "Hostmax", "Hosts"]
      ∧ (r.map ResultItem.Value).head? = some (ip4Str ⟨a, b, c, d⟩) := by
  have hcalc : calculate (.v4 a b c d) (.num p) = .ok
      [⟨"Address", ip4Str ⟨a, b, c, d⟩⟩,
       ⟨"Bitmask", toString p⟩,
       ⟨"Netmask", ip4Str (netmaskOf p)⟩,
       ⟨"Wildcard", ip4Str (wildcardOf p)⟩,
       ⟨"Network", ip4Str (networkOf ⟨a, b, c, d⟩ p)⟩,
       ⟨"Broadcast", ip4Str (broadcastOf ⟨a, b, c, d⟩ p)⟩,
       ⟨"Hostmin", ip4Str (hostminOf ⟨a, b, c, d⟩ p)⟩,
       ⟨"Hostmax", ip4Str (hostmaxOf ⟨a, b, c, d⟩ p)⟩,
       ⟨"Hosts", toString (calculateTotalHosts p)⟩] := by
    simp only [calculate]
    rw [if_neg (by omega), if_pos h]
  exact ⟨_, hcalc, rfl, rfl⟩

theorem result_shape_witness :
    ∃ r, calculate (.v4 192 168 1 5) (.num 0) = .ok r
      ∧ r.map ResultItem.Name =
          ["Address", "Bitmask", "Netmask", "Wildcard", "Network", "Broadcast",
           "Hostmin", "Hostmax", "Hosts"]
      ∧ (r.map ResultItem.Value).head? = some (ip4Str ⟨192, 168, 1, 5⟩) :=
  result_shape 192 168 1 5 0 (by decide) (by decide)

/-- C3 counterexample: for the input 192.168.1.0/33 the pipeline fails in
`parseCIDR` with the "invalid CIDR" format error, not with the
"invalid bitmask" validation error the claim names. -/
theorem bitmask33_counterexample :
    runConsoleMode ⟨true, .v4 192 168 1 0, .num 33⟩ = .error "invalid CIDR"
  ∧ runConsoleMode ⟨true, .v4 192 168 1 0, .num 33⟩ ≠ .error "invalid bitmask" := by
  refine ⟨rfl, ?_⟩
  intro h
  injection h with h2
  exact absurd h2 (by decide)

/-- C3 as amended: an input whose prefix part is 33 is rejected, but the
error depends on the address family: with an IPv4 address `net.ParseCIDR`
inside `parseCIDR` already fails (prefix beyond the 32-bit length), giving
the "invalid CIDR" format error; the "invalid bitmask" validation error in
`calculate` is reached only when the address part is IPv6 (bit length 128),
or when `calculate` is invoked directly with mask text 33. -/
theorem bitmask33_amended (a b c d : Nat) (h : a ≤ 255 ∧ b ≤ 255 ∧ c ≤ 255 ∧ d ≤ 255) :
    runConsoleMode ⟨true, .v4 a b c d, .num 33⟩ = .error "invalid CIDR"
  ∧ runConsoleMode ⟨true, .v6, .num 33⟩ = .error "invalid bitmask"
  ∧ calculate (.v4 a b c d) (.num 33) = .error "invalid bitmask" := by
  refine ⟨?_, rfl, rfl⟩
  simp [runConsoleMode, parseCIDR, AddrText.bitLen, h]

theorem bitmask33_amended_witness :
    runConsoleMode ⟨true, .v4 192 168 1 0, .num 33⟩ = .error "invalid CIDR"
  ∧ calculate (.v4 192 168 1 0) (.num 33) = .error "invalid bitmask" :=
  ⟨(bitmask33_amended 192 168 1 0 (by decide)).1,
   (bitmask33_amended 192 168 1 0 (by decide)).2.2⟩

/-- C4 counterexample: for the input ::1/64 the pipeline fails with the
"invalid bitmask" validation error (64 exceeds 32), not with the
"IPv6 is not supported" error the claim names — the bitmask range check in
`calculate` runs before the address-family check. -/
theorem ipv6_counterexample :
    runConsoleMode ⟨true, .v6, .num 64⟩ = .error "invalid bitmask"
  ∧ runConsoleMode ⟨true, .v6, .num 64⟩ ≠ .error "IPv6 is not supported" := by
  refine ⟨rfl, ?_⟩
  intro h
  injection h with h2
  exact absurd h2 (by decide)

/-- C4 as amended: a syntactically valid IPv6 CIDR input is always rejected,
but the error depends on the prefix value: prefixes in [0,32] reach the
address-family check and fail with "IPv6 is not supported", while prefixes
in [33,128] fail earlier in `calculate` with "invalid bitmask". -/
theorem ipv6_errors (n : Nat) (hn : n ≤ 128) :
    (n ≤ 32 → runConsoleMode ⟨true, .v6, .num n⟩ = .error "IPv6 is not supported")
  ∧ (32 < n → runConsoleMode ⟨true, .v6, .num n⟩ = .error "invalid bitmask") := by
  have hparse : parseCIDR ⟨true, .v6, .num n⟩ = .ok (.v6, .num n) := by
    simp [parseCIDR, AddrText.bitLen, hn]
  constructor
  · intro h
    simp [runConsoleMode, hparse, calculate, Nat.not_lt.mpr h]
  · intro h
    simp [runConsoleMode, hparse, calculate, h]

theorem ipv6_errors_witness :
    runConsoleMode ⟨true, AddrText.v6, MaskText.num 32⟩ = .error "IPv6 is not supported" :=
  (ipv6_errors 32 (by decide)).1 (by decide)
